import Mathlib

/-!
Verification development for the SnS-LED-Signatures overhead-tracking program
(`src/main.py`).  The per-frame pipeline of `main` — clustering the detected
LED points, matching each cataloged robot pattern against the clusters by
minimum dissimilarity score, assembling the `bot_positions` table, and
publishing it over the TCP connection with a blocking fixed-size
acknowledgment read — is embedded shallowly below.

The helper modules `botDetector` (with `groupNearbyPoints`, `detectShape`,
`groupCenter`, `botPatterns.getPattern`) and `OverheadCamera` (with
`pixelsToCartesian`, `x_offset`, `y_offset`, `FIELD_LENGTH`, `FIELD_WIDTH`)
are not part of the repository snapshot; where their behavior is needed it is
modelled from the specification, and each such definition says so in its doc
comment.  The dissimilarity score `detectShape(group, getPattern(name))` is
kept abstract as a rational-valued function parameter, since the spec leaves
the exact scoring function a design choice.
-/

namespace SnS

/-- A detected LED point in field coordinates, as appended to the `LEDs`
list in `main` (coordinates modelled as rationals). -/
abbrev Point := ℚ × ℚ

/-- A field position in the `bot_positions` table: `none` is the
"unresolved" sentinel (Python `None`, JSON `null`). -/
abbrev FieldPosition := Option Point

/-- The per-frame `bot_positions` table, an insertion-ordered mapping from
string key to field position (Python dicts preserve insertion order). -/
abbrev Snapshot := List (String × FieldPosition)

/-- Squared Euclidean distance between two points. -/
def sqdist (p q : Point) : ℚ :=
  (p.1 - q.1) ^ 2 + (p.2 - q.2) ^ 2

/-- Modelled from the spec: a candidate point is within the clustering
radius of some member of the cluster being grown (`dist ≤ radius`, taken on
squared distances, which is equivalent for a nonnegative radius). -/
def nearCluster (r : ℚ) (cluster : List Point) (q : Point) : Bool :=
  cluster.any (fun p => sqdist p q ≤ r * r)

/-- Modelled from the spec: one connected component of the single-link
grouping.  Starting from `cluster`, repeatedly absorb every remaining point
within `r` of some member until none qualifies; returns the grown cluster
and the untouched remainder. -/
def expand (r : ℚ) (cluster rest : List Point) : List Point × List Point :=
  if h : (rest.filter (nearCluster r cluster)).isEmpty then
    (cluster, rest)
  else
    expand r (cluster ++ rest.filter (nearCluster r cluster))
      (rest.filter (fun q => !nearCluster r cluster q))
termination_by rest.length
decreasing_by
  apply List.length_filter_lt_length_iff_exists.mpr
  rw [List.isEmpty_iff] at h
  obtain ⟨x, hx⟩ := List.exists_mem_of_ne_nil _ h
  exact ⟨x, (List.mem_filter.mp hx).1, by
    simp [List.mem_filter.mp hx |>.2]⟩

theorem expand_perm (r : ℚ) (cluster rest : List Point) :
    List.Perm ((expand r cluster rest).1 ++ (expand r cluster rest).2)
      (cluster ++ rest) := by
  induction cluster, rest using expand.induct r with
  | case1 cluster rest h =>
    rw [expand, dif_pos h]
  | case2 cluster rest h ih =>
    rw [expand, dif_neg h]
    refine ih.trans ?_
    rw [List.append_assoc]
    exact (List.filter_append_perm (nearCluster r cluster) rest).append_left cluster

theorem expand_fst_eq_append (r : ℚ) (cluster rest : List Point) :
    ∃ t, (expand r cluster rest).1 = cluster ++ t := by
  induction cluster, rest using expand.induct r with
  | case1 cluster rest h =>
    exact ⟨[], by rw [expand, dif_pos h, List.append_nil]⟩
  | case2 cluster rest h ih =>
    obtain ⟨t, ht⟩ := ih
    exact ⟨rest.filter (nearCluster r cluster) ++ t, by
      rw [expand, dif_neg h, ht, List.append_assoc]⟩

theorem expand_snd_length_le (r : ℚ) (cluster rest : List Point) :
    (expand r cluster rest).2.length ≤ rest.length := by
  have hperm := (expand_perm r cluster rest).length_eq
  obtain ⟨t, ht⟩ := expand_fst_eq_append r cluster rest
  rw [List.length_append, List.length_append, ht, List.length_append] at hperm
  omega

/-- Modelled from the spec: `botDetector.groupNearbyPoints(points, radius)`
— single-link connected-components clustering under the distance threshold
`radius`; called as `groupNearbyPoints(LEDs, 1)` in `main`.  An empty point
list yields an empty cluster list. -/
def groupNearbyPoints (pts : List Point) (r : ℚ) : List (List Point) :=
  match pts with
  | [] => []
  | p :: ps => (expand r [p] ps).1 :: groupNearbyPoints (expand r [p] ps).2 r
termination_by pts.length
decreasing_by
  have := expand_snd_length_le r [p] ps
  simp only [List.length_cons]
  omega

theorem groupNearbyPoints_flatten_perm (pts : List Point) (r : ℚ) :
    List.Perm (groupNearbyPoints pts r).flatten pts := by
  induction pts, r using groupNearbyPoints.induct with
  | case1 =>
    rw [groupNearbyPoints]
    exact List.Perm.refl _
  | case2 r p ps ih =>
    rw [groupNearbyPoints, List.flatten_cons]
    exact ((ih.append_left _).trans (expand_perm r [p] ps)).trans (by rfl)

/-- Modelled from the spec: `botDetector.groupCenter(cluster)` — arithmetic
mean of the member points, or `none` for an absent (`None`) or empty
cluster, as `main` passes the possibly-`None` `best_bot` straight in. -/
def groupCenter : Option (List Point) → Option Point
  | none => none
  | some [] => none
  | some (p :: ps) =>
    some ((((p :: ps).map Prod.fst).sum / (p :: ps).length,
           ((p :: ps).map Prod.snd).sum / (p :: ps).length) : Point)

/-- One iteration of the `for group in groups` loop in `main`: skip a group
of length `< 1`, otherwise score it (`detectShape(group, pattern)`,
abstracted as `score`) and keep it when its score beats the best so far
strictly (`score < best_score`, with `best_score` starting at `math.inf`,
modelled by the accumulator starting at `none`). -/
def selectStep (score : List Point → ℚ) (acc : Option (List Point × ℚ))
    (g : List Point) : Option (List Point × ℚ) :=
  if g.length < 1 then acc
  else
    match acc with
    | none => some (g, score g)
    | some (b, bs) => if score g < bs then some (g, score g) else some (b, bs)

/-- The `best_bot` computed by the inner loop of `main` for one pattern:
fold of `selectStep` over the cluster list, starting from no best
(`best_bot = None`, `best_score = math.inf`). -/
def bestBot (score : List Point → ℚ) (groups : List (List Point)) :
    Option (List Point) :=
  (groups.foldl (selectStep score) none).map Prod.fst


theorem selectStep_nil (score : List Point → ℚ) (acc : Option (List Point × ℚ)) :
    selectStep score acc [] = acc := by
  unfold selectStep
  rw [if_pos (by simp)]

theorem selectStep_none_ne (score : List Point → ℚ) (g : List Point)
    (h : g ≠ []) : selectStep score none g = some (g, score g) := by
  unfold selectStep
  rw [if_neg (by simpa using h)]

theorem selectStep_some_lt (score : List Point → ℚ) (b0 : List Point) (bs0 : ℚ)
    (g : List Point) (h : g ≠ []) (hlt : score g < bs0) :
    selectStep score (some (b0, bs0)) g = some (g, score g) := by
  unfold selectStep
  rw [if_neg (by simpa using h)]
  exact if_pos hlt

theorem selectStep_some_ge (score : List Point → ℚ) (b0 : List Point) (bs0 : ℚ)
    (g : List Point) (h : g ≠ []) (hge : ¬ score g < bs0) :
    selectStep score (some (b0, bs0)) g = some (b0, bs0) := by
  unfold selectStep
  rw [if_neg (by simpa using h)]
  exact if_neg hge

theorem foldl_selectStep_mem (score : List Point → ℚ)
    (groups : List (List Point)) (acc : Option (List Point × ℚ)) (b : List Point)
    (s : ℚ) (h : groups.foldl (selectStep score) acc = some (b, s)) :
    acc = some (b, s) ∨ (b ∈ groups ∧ b ≠ [] ∧ s = score b) := by
  induction groups generalizing acc with
  | nil => exact Or.inl h
  | cons g gs ih =>
    rw [List.foldl_cons] at h
    rcases ih (selectStep score acc g) h with h' | h'
    · by_cases hg : g = []
      · rw [hg, selectStep_nil] at h'
        exact Or.inl h'
      · match acc with
        | none =>
          rw [selectStep_none_ne score g hg] at h'
          obtain ⟨hb, hs⟩ := Prod.mk.injEq .. ▸ Option.some.inj h'
          exact Or.inr ⟨hb ▸ List.mem_cons_self .., hb ▸ hg, hs.symm.trans (by rw [hb])⟩
        | some (b0, bs0) =>
          by_cases hlt : score g < bs0
          · rw [selectStep_some_lt score b0 bs0 g hg hlt] at h'
            obtain ⟨hb, hs⟩ := Prod.mk.injEq .. ▸ Option.some.inj h'
            exact Or.inr ⟨hb ▸ List.mem_cons_self .., hb ▸ hg, hs.symm.trans (by rw [hb])⟩
          · rw [selectStep_some_ge score b0 bs0 g hg hlt] at h'
            exact Or.inl h'
    · exact Or.inr ⟨List.mem_cons_of_mem _ h'.1, h'.2⟩

theorem foldl_selectStep_min (score : List Point → ℚ)
    (groups : List (List Point)) (acc : Option (List Point × ℚ)) (b : List Point)
    (s : ℚ) (h : groups.foldl (selectStep score) acc = some (b, s)) :
    (∀ g ∈ groups, g ≠ [] → s ≤ score g) ∧
      (∀ b0 bs0, acc = some (b0, bs0) → s ≤ bs0) := by
  induction groups generalizing acc with
  | nil =>
    rw [List.foldl_nil] at h
    refine ⟨fun g hg => absurd hg (List.not_mem_nil g), fun b0 bs0 h0 => ?_⟩
    rw [h0] at h
    exact le_of_eq (Prod.mk.injEq .. ▸ Option.some.inj h).2.symm
  | cons g gs ih =>
    rw [List.foldl_cons] at h
    obtain ⟨ihall, ihacc⟩ := ih (selectStep score acc g) h
    constructor
    · intro g' hg' hne
      rcases List.mem_cons.mp hg' with rfl | hmem
      · match acc with
        | none => exact ihacc _ _ (selectStep_none_ne score g' hne)
        | some (b0, bs0) =>
          by_cases hlt : score g' < bs0
          · exact ihacc _ _ (selectStep_some_lt score b0 bs0 g' hne hlt)
          · exact le_trans (ihacc _ _ (selectStep_some_ge score b0 bs0 g' hne hlt))
              (not_lt.mp hlt)
      · exact ihall g' hmem hne
    · rintro b0 bs0 rfl
      by_cases hg : g = []
      · rw [hg, selectStep_nil] at ihacc
        exact ihacc _ _ rfl
      · by_cases hlt : score g < bs0
        · rw [selectStep_some_lt score b0 bs0 g hg hlt] at ihacc
          exact le_of_lt (lt_of_le_of_lt (ihacc _ _ rfl) hlt)
        · rw [selectStep_some_ge score b0 bs0 g hg hlt] at ihacc
          exact ihacc _ _ rfl

theorem foldl_selectStep_isSome (score : List Point → ℚ)
    (groups : List (List Point)) (acc : Option (List Point × ℚ))
    (h : (∃ g ∈ groups, g ≠ []) ∨ acc.isSome) :
    (groups.foldl (selectStep score) acc).isSome := by
  induction groups generalizing acc with
  | nil => simpa using h.resolve_left (by simp)
  | cons g gs ih =>
    rw [List.foldl_cons]
    apply ih
    rcases h with ⟨g', hg', hne⟩ | hacc
    · rcases List.mem_cons.mp hg' with rfl | hmem
      · right
        match acc with
        | none => rw [selectStep_none_ne score g' hne]; rfl
        | some (b0, bs0) =>
          by_cases hlt : score g' < bs0
          · rw [selectStep_some_lt score b0 bs0 g' hne hlt]; rfl
          · rw [selectStep_some_ge score b0 bs0 g' hne hlt]; rfl
      · exact Or.inl ⟨g', hmem, hne⟩
    · right
      match acc with
      | some (b0, bs0) =>
        by_cases hg : g = []
        · rw [hg, selectStep_nil]; rfl
        · by_cases hlt : score g < bs0
          · rw [selectStep_some_lt score b0 bs0 g hg hlt]; rfl
          · rw [selectStep_some_ge score b0 bs0 g hg hlt]; rfl

theorem foldl_selectStep_none (score : List Point → ℚ)
    (groups : List (List Point)) (h : ∀ g ∈ groups, g = []) :
    groups.foldl (selectStep score) none = none := by
  induction groups with
  | nil => rfl
  | cons g gs ih =>
    rw [List.foldl_cons, h g (List.mem_cons_self ..), selectStep_nil]
    exact ih fun g' hg' => h g' (List.mem_cons_of_mem _ hg')

theorem bestBot_spec_some (score : List Point → ℚ) (groups : List (List Point))
    (h : ∃ g ∈ groups, g ≠ []) :
    ∃ b, bestBot score groups = some b ∧ b ∈ groups ∧ b ≠ [] ∧
      ∀ g ∈ groups, g ≠ [] → score b ≤ score g := by
  obtain ⟨p, hp⟩ := Option.isSome_iff_exists.mp
    (foldl_selectStep_isSome score groups none (Or.inl h))
  obtain ⟨b, s⟩ := p
  rcases foldl_selectStep_mem score groups none b s hp with h' | h'
  · exact absurd h' (by simp)
  · refine ⟨b, ?_, h'.1, h'.2.1, ?_⟩
    · rw [bestBot, hp]
      rfl
    · intro g hg hne
      have := (foldl_selectStep_min score groups none b s hp).1 g hg hne
      rw [← h'.2.2]
      exact this

theorem bestBot_none (score : List Point → ℚ) (groups : List (List Point))
    (h : ∀ g ∈ groups, g = []) : bestBot score groups = none := by
  rw [bestBot, foldl_selectStep_none score groups h]
  rfl

theorem groupCenter_some (b : List Point) (h : b ≠ []) :
    ∃ p, groupCenter (some b) = some p := by
  match b with
  | [] => exact absurd rfl h
  | q :: qs => exact ⟨_, rfl⟩

/-- Construction-time camera parameters that feed the `'CAM'` entry of the
`bot_positions` table in `main`: the `OverheadCamera` offsets
(`midfield_offset`, `sideline_offset`) and its `FIELD_LENGTH` /
`FIELD_WIDTH` class constants.  Modelled from the spec: the
`OverheadCamera` module itself is not in the repository snapshot, so these
four quantities are kept as parameters. -/
structure CamParams where
  x_offset : ℚ
  y_offset : ℚ
  fieldLength : ℚ
  fieldWidth : ℚ
deriving DecidableEq

/-- The camera's own fixed field position, computed as in `main`:
`(cam.x_offset + oc.FIELD_LENGTH, cam.y_offset + oc.FIELD_WIDTH)` — a direct
sum of construction-time parameters, with no call to the pixel projection. -/
def camSelfPos (c : CamParams) : Point :=
  (c.x_offset + c.fieldLength, c.y_offset + c.fieldWidth)

/-- The fixed identity catalog `bots_in_play = ('X', 'Y', 'STAIR', 'H', 'L')`
of `main`, in its fixed iteration order. -/
def botsInPlay : List String := ["X", "Y", "STAIR", "H", "L"]

/-- One iteration of the frame-assembly section of `main` (lines 246–269):
start `bot_positions` with the `'CAM'` entry, cluster the frame's LED points
with radius 1, and for each cataloged pattern, in the fixed catalog order,
insert the center of the best-scoring cluster (or the unresolved sentinel).
`score pat group` abstracts `detectShape(group, botPatterns.getPattern(pat))`. -/
def frameSnapshot (score : String → List Point → ℚ) (c : CamParams)
    (leds : List Point) : Snapshot :=
  ("CAM", some (camSelfPos c)) ::
    botsInPlay.map fun pat =>
      (pat, groupCenter (bestBot (score pat) (groupNearbyPoints leds 1)))

theorem frameSnapshot_lookup (score : String → List Point → ℚ) (c : CamParams)
    (leds : List Point) (pat : String) (hpat : pat ∈ botsInPlay) :
    (frameSnapshot score c leds).lookup pat =
      some (groupCenter (bestBot (score pat) (groupNearbyPoints leds 1))) := by
  fin_cases hpat
  · rfl
  · rfl
  · rfl
  · rfl
  · rfl

/-- The fixed acknowledgment read size `PACKET_SIZE = 1024` of `main.py`. -/
def PACKET_SIZE : ℕ := 1024

/-- The run parameter `SAVE_FRAME_RATE = 0` of `main.py`, reported as the
`'FPS'` field of the configuration packet. -/
def SAVE_FRAME_RATE : ℤ := 0

/-- The payload of `configDataPacket()` in `main.py`: the dictionary
`{'FPS': SAVE_FRAME_RATE, 'PACKET_SIZE': PACKET_SIZE}` that is JSON-encoded
and sent once on connection acceptance. -/
structure ConfigData where
  fps : ℤ
  packetSize : ℕ
deriving DecidableEq

/-- The value `configDataPacket()` serializes. -/
def configDataPacket : ConfigData :=
  { fps := SAVE_FRAME_RATE, packetSize := PACKET_SIZE }

/-- How the peer behaves during one frame's publish step: both the send and
the blocking acknowledgment read succeed, or the peer is gone and
`conn.send` raises `BrokenPipeError`, or the send succeeds and `conn.recv`
raises `BrokenPipeError`. -/
inductive Outcome where
  | ok
  | brokenPipeOnSend
  | brokenPipeOnRecv
deriving DecidableEq

/-- Observable I/O events of the publisher, in program order.  `sendConfig`
is the one-time configuration send after `accept`; `sendSnapshot` carries
the serialized `bot_positions` table; `recvAck` is the blocking
`conn.recv(PACKET_SIZE)`; `logClientClosed` is the `except BrokenPipeError`
print; `closeConn` is the `conn.close()` after the loop. -/
inductive Event where
  | sendConfig (cfg : ConfigData)
  | sendSnapshot (snap : Snapshot)
  | recvAck (size : ℕ)
  | logClientClosed
  | closeConn
deriving DecidableEq

/-- The events of one iteration of the `if RUN_SERVER:` block of the main
loop (lines 276–285 of `main.py`): compute the snapshot for this frame's
LED points, send it, then block on `conn.recv(PACKET_SIZE)`; if the peer is
gone, the `except BrokenPipeError` handler only logs and the iteration
ends. -/
def frameEvents (score : String → List Point → ℚ) (c : CamParams)
    (leds : List Point) (out : Outcome) : List Event :=
  match out with
  | .ok => [.sendSnapshot (frameSnapshot score c leds), .recvAck PACKET_SIZE]
  | .brokenPipeOnSend => [.logClientClosed]
  | .brokenPipeOnRecv => [.sendSnapshot (frameSnapshot score c leds), .logClientClosed]

/-- The event trace of the main loop over a finite run: one entry per frame,
giving that frame's detected LED points and the peer's behavior; frames are
processed strictly in order on the single execution context. -/
def loopTrace (score : String → List Point → ℚ) (c : CamParams) :
    List (List Point × Outcome) → List Event
  | [] => []
  | (leds, out) :: rest => frameEvents score c leds out ++ loopTrace score c rest

/-- The event trace of a whole accepted session: the configuration packet is
sent right after `accept` (line 168), then the main loop runs, and
`conn.close()` runs only after the loop exits (line 292). -/
def sessionTrace (score : String → List Point → ℚ) (c : CamParams)
    (frames : List (List Point × Outcome)) : List Event :=
  .sendConfig configDataPacket :: (loopTrace score c frames ++ [.closeConn])

/-- The snapshots actually transmitted in a trace, in order. -/
def sentSnapshots (l : List Event) : List Snapshot :=
  l.filterMap fun e =>
    match e with
    | .sendSnapshot s => some s
    | _ => none

/-- Every acknowledgment read in the trace is immediately preceded by a
snapshot send — in particular no acknowledgment is read for the
configuration packet. -/
def ackPreceded (l : List Event) : Prop :=
  ∀ i n, l[i]? = some (.recvAck n) →
    ∃ s j, i = j + 1 ∧ l[j]? = some (.sendSnapshot s)

theorem ackPreceded_append (a b : List Event) (ha : ackPreceded a)
    (hb : ackPreceded b) (hb0 : ∀ n, b[0]? ≠ some (.recvAck n)) :
    ackPreceded (a ++ b) := by
  intro i n h
  by_cases hi : i < a.length
  · rw [List.getElem?_append_left hi] at h
    obtain ⟨s, j, rfl, hj⟩ := ha i n h
    exact ⟨s, j, rfl, by rw [List.getElem?_append_left (by omega), hj]⟩
  · push_neg at hi
    rw [List.getElem?_append_right hi] at h
    rcases Nat.eq_or_lt_of_le hi with heq | hlt
    · rw [← heq, Nat.sub_self] at h
      exact absurd h (hb0 n)
    · obtain ⟨s, j', hj'eq, hj'⟩ := hb (i - a.length) n h
      refine ⟨s, j' + a.length, by omega, ?_⟩
      rw [List.getElem?_append_right (by omega),
        show j' + a.length - a.length = j' from by omega, hj']

theorem ackPreceded_frameEvents (score : String → List Point → ℚ)
    (c : CamParams) (leds : List Point) (out : Outcome) :
    ackPreceded (frameEvents score c leds out) := by
  intro i n h
  match out with
  | .ok =>
    match i with
    | 0 => simp [frameEvents] at h
    | 1 => exact ⟨frameSnapshot score c leds, 0, rfl, rfl⟩
    | (k + 2) => simp [frameEvents] at h
  | .brokenPipeOnSend =>
    match i with
    | 0 => simp [frameEvents] at h
    | (k + 1) => simp [frameEvents] at h
  | .brokenPipeOnRecv =>
    match i with
    | 0 => simp [frameEvents] at h
    | 1 => simp [frameEvents] at h
    | (k + 2) => simp [frameEvents] at h

theorem frameEvents_head_ne_ack (score : String → List Point → ℚ)
    (c : CamParams) (leds : List Point) (out : Outcome) (n : ℕ) :
    (frameEvents score c leds out)[0]? ≠ some (.recvAck n) := by
  cases out <;> simp [frameEvents]

theorem head_ne_ack_append (a b : List Event)
    (ha : ∀ n, a[0]? ≠ some (.recvAck n)) (hb : ∀ n, b[0]? ≠ some (.recvAck n))
    (n : ℕ) : (a ++ b)[0]? ≠ some (.recvAck n) := by
  match a with
  | [] => simpa using hb n
  | e :: es => simpa using ha n

theorem loopTrace_head_ne_ack (score : String → List Point → ℚ)
    (c : CamParams) (frames : List (List Point × Outcome)) (n : ℕ) :
    (loopTrace score c frames)[0]? ≠ some (.recvAck n) := by
  match frames with
  | [] => simp [loopTrace]
  | (leds, out) :: rest =>
    rw [loopTrace]
    exact head_ne_ack_append _ _ (frameEvents_head_ne_ack score c leds out)
      (loopTrace_head_ne_ack score c rest) n

theorem ackPreceded_loopTrace (score : String → List Point → ℚ)
    (c : CamParams) (frames : List (List Point × Outcome)) :
    ackPreceded (loopTrace score c frames) := by
  induction frames with
  | nil => intro i n h; simp [loopTrace] at h
  | cons f rest ih =>
    obtain ⟨leds, out⟩ := f
    rw [loopTrace]
    exact ackPreceded_append _ _ (ackPreceded_frameEvents score c leds out) ih
      (loopTrace_head_ne_ack score c rest)

theorem ackPreceded_sessionTrace (score : String → List Point → ℚ)
    (c : CamParams) (frames : List (List Point × Outcome)) :
    ackPreceded (sessionTrace score c frames) := by
  have htail : ackPreceded (loopTrace score c frames ++ [Event.closeConn]) :=
    ackPreceded_append _ _ (ackPreceded_loopTrace score c frames)
      (by intro i n h; match i with
          | 0 => simp at h
          | (k + 1) => simp at h)
      (by intro n; simp)
  have : sessionTrace score c frames =
      [Event.sendConfig configDataPacket] ++
        (loopTrace score c frames ++ [Event.closeConn]) := rfl
  rw [this]
  refine ackPreceded_append _ _ ?_ htail ?_
  · intro i n h
    match i with
    | 0 => simp at h
    | (k + 1) => simp at h
  · exact head_ne_ack_append _ _ (loopTrace_head_ne_ack score c frames)
      (by intro n; simp)

theorem sendConfig_not_mem_frameEvents (score : String → List Point → ℚ)
    (c : CamParams) (leds : List Point) (out : Outcome) (cfg : ConfigData) :
    Event.sendConfig cfg ∉ frameEvents score c leds out := by
  cases out <;> simp [frameEvents]

theorem closeConn_not_mem_frameEvents (score : String → List Point → ℚ)
    (c : CamParams) (leds : List Point) (out : Outcome) :
    Event.closeConn ∉ frameEvents score c leds out := by
  cases out <;> simp [frameEvents]

theorem sendConfig_not_mem_loopTrace (score : String → List Point → ℚ)
    (c : CamParams) (frames : List (List Point × Outcome)) (cfg : ConfigData) :
    Event.sendConfig cfg ∉ loopTrace score c frames := by
  induction frames with
  | nil => simp [loopTrace]
  | cons f rest ih =>
    obtain ⟨leds, out⟩ := f
    rw [loopTrace]
    intro hmem
    rcases List.mem_append.mp hmem with hmem | hmem
    · exact sendConfig_not_mem_frameEvents score c leds out cfg hmem
    · exact ih hmem

theorem closeConn_not_mem_loopTrace (score : String → List Point → ℚ)
    (c : CamParams) (frames : List (List Point × Outcome)) :
    Event.closeConn ∉ loopTrace score c frames := by
  induction frames with
  | nil => simp [loopTrace]
  | cons f rest ih =>
    obtain ⟨leds, out⟩ := f
    rw [loopTrace]
    intro hmem
    rcases List.mem_append.mp hmem with hmem | hmem
    · exact closeConn_not_mem_frameEvents score c leds out hmem
    · exact ih hmem

theorem loopTrace_ok (score : String → List Point → ℚ) (c : CamParams)
    (frames : List (List Point × Outcome)) (h : ∀ f ∈ frames, f.2 = .ok) :
    loopTrace score c frames = frames.flatMap fun f =>
      [.sendSnapshot (frameSnapshot score c f.1), .recvAck PACKET_SIZE] := by
  induction frames with
  | nil => rfl
  | cons f rest ih =>
    obtain ⟨leds, out⟩ := f
    have hout : out = .ok := h (leds, out) (List.mem_cons_self ..)
    subst hout
    rw [loopTrace, List.flatMap_cons,
      ih fun f hf => h f (List.mem_cons_of_mem _ hf)]
    rfl

theorem sentSnapshots_loopTrace_ok (score : String → List Point → ℚ)
    (c : CamParams) (frames : List (List Point × Outcome))
    (h : ∀ f ∈ frames, f.2 = .ok) :
    sentSnapshots (loopTrace score c frames) =
      frames.map fun f => frameSnapshot score c f.1 := by
  rw [loopTrace_ok score c frames h]
  induction frames with
  | nil => rfl
  | cons f rest ih =>
    have ih' := ih fun g hg => h g (List.mem_cons_of_mem _ hg)
    rw [List.flatMap_cons, List.map_cons]
    unfold sentSnapshots at ih' ⊢
    rw [List.filterMap_append, ih']
    rfl

theorem groupNearbyPoints_nil (r : ℚ) : groupNearbyPoints [] r = [] := by
  rw [groupNearbyPoints]

/-- Claim C1: while the connection is accepted, each frame's publish step first
sends the serialized FrameSnapshot and then performs a blocking read of a
fixed-size (`PACKET_SIZE = 1024`) acknowledgment from the same connection,
and the next frame's processing begins only after that read returns: the
loop trace is exactly the in-order concatenation of one
`[sendSnapshot, recvAck PACKET_SIZE]` block per frame. -/
theorem publish_send_then_blocking_ack (score : String → List Point → ℚ)
    (c : CamParams) (frames : List (List Point × Outcome))
    (h : ∀ f ∈ frames, f.2 = Outcome.ok) :
    loopTrace score c frames = frames.flatMap fun f =>
      [Event.sendSnapshot (frameSnapshot score c f.1),
       Event.recvAck PACKET_SIZE] :=
  loopTrace_ok score c frames h

theorem publish_send_then_blocking_ack_witness :
    (∀ f ∈ [(([] : List Point), Outcome.ok)], f.2 = Outcome.ok) ∧
      loopTrace (fun _ _ => 0) ⟨0, 0, 0, 0⟩ [([], Outcome.ok)] =
        [(([] : List Point), Outcome.ok)].flatMap fun f =>
          [Event.sendSnapshot (frameSnapshot (fun _ _ => 0) ⟨0, 0, 0, 0⟩ f.1),
           Event.recvAck PACKET_SIZE] :=
  ⟨by decide, publish_send_then_blocking_ack (fun _ _ => 0) ⟨0, 0, 0, 0⟩
    [([], Outcome.ok)] (by decide)⟩

/-- Claim C2: when a frame's send or acknowledgment read fails because the peer is
gone (`BrokenPipeError`), that frame contributes only the handler's log
message (after the snapshot send, if the send itself succeeded), with no
connection close, no new configuration send (no reconnection), and the loop
continues directly with the remaining frames on the same connection;
moreover no event of any main-loop trace ever closes the connection. -/
theorem peer_gone_logs_and_continues (score : String → List Point → ℚ)
    (c : CamParams) (leds : List Point) (out : Outcome)
    (rest : List (List Point × Outcome)) (h : out ≠ Outcome.ok) :
    loopTrace score c ((leds, out) :: rest) =
        frameEvents score c leds out ++ loopTrace score c rest
      ∧ Event.logClientClosed ∈ frameEvents score c leds out
      ∧ (∀ cfg, Event.sendConfig cfg ∉ frameEvents score c leds out)
      ∧ Event.closeConn ∉ frameEvents score c leds out
      ∧ ∀ frames, Event.closeConn ∉ loopTrace score c frames := by
  refine ⟨rfl, ?_, sendConfig_not_mem_frameEvents score c leds out,
    closeConn_not_mem_frameEvents score c leds out,
    closeConn_not_mem_loopTrace score c⟩
  cases out with
  | ok => exact absurd rfl h
  | brokenPipeOnSend => simp [frameEvents]
  | brokenPipeOnRecv => simp [frameEvents]

theorem peer_gone_logs_and_continues_witness :
    Event.logClientClosed ∈
      frameEvents (fun _ _ => 0) ⟨0, 0, 0, 0⟩ [] Outcome.brokenPipeOnSend :=
  (peer_gone_logs_and_continues (fun _ _ => 0) ⟨0, 0, 0, 0⟩ []
    Outcome.brokenPipeOnSend [] (by decide)).2.1

/-- Claim C3: with zero input points the per-frame assembly produces the
FrameSnapshot in which every cataloged BotIdentity maps to the unresolved
sentinel (only the fixed CAM entry is resolved); the assembly is a total
function, so no failure path exists. -/
theorem empty_frame_all_unresolved (score : String → List Point → ℚ)
    (c : CamParams) :
    frameSnapshot score c [] =
        ("CAM", some (camSelfPos c)) ::
          botsInPlay.map (fun pat => (pat, (none : FieldPosition)))
      ∧ ∀ pat ∈ botsInPlay,
        (frameSnapshot score c []).lookup pat = some none := by
  constructor
  · unfold frameSnapshot
    simp only [groupNearbyPoints_nil]
    rfl
  · intro pat hpat
    rw [frameSnapshot_lookup score c [] pat hpat]
    simp only [groupNearbyPoints_nil]
    rfl

theorem empty_frame_all_unresolved_witness :
    (frameSnapshot (fun _ _ => 0) ⟨0, 0, 0, 0⟩ []).lookup "X" = some none :=
  (empty_frame_all_unresolved (fun _ _ => 0) ⟨0, 0, 0, 0⟩).2 "X" (by decide)

/-- Claim C4: every BotIdentity is resolved against the full candidate cluster
list independently of the other identities and in the fixed catalog order —
its table entry is a function of the cluster list and its own pattern only,
and is the center of a nonempty cluster achieving the minimum dissimilarity
score over all nonempty clusters — and assignment is non-exclusive: one
cluster can be the best match of two different identities. -/
theorem independent_min_score_nonexclusive (score : String → List Point → ℚ)
    (c : CamParams) (leds : List Point) :
    ((frameSnapshot score c leds).map Prod.fst = "CAM" :: botsInPlay)
    ∧ (∀ pat ∈ botsInPlay, (frameSnapshot score c leds).lookup pat =
        some (groupCenter (bestBot (score pat) (groupNearbyPoints leds 1))))
    ∧ (∀ pat, (∃ g ∈ groupNearbyPoints leds 1, g ≠ []) →
        ∃ b, bestBot (score pat) (groupNearbyPoints leds 1) = some b
          ∧ b ∈ groupNearbyPoints leds 1 ∧ b ≠ []
          ∧ ∀ g ∈ groupNearbyPoints leds 1, g ≠ [] → score pat b ≤ score pat g)
    ∧ ∃ (s : String → List Point → ℚ) (G : List (List Point))
        (b : List Point) (p1 p2 : String), p1 ∈ botsInPlay ∧ p2 ∈ botsInPlay
          ∧ p1 ≠ p2 ∧ bestBot (s p1) G = some b ∧ bestBot (s p2) G = some b := by
  refine ⟨?_, fun pat hpat => frameSnapshot_lookup score c leds pat hpat,
    fun pat h => bestBot_spec_some (score pat) _ h,
    ⟨fun _ _ => 0, [[(0, 0)]], [(0, 0)], "X", "Y",
      by decide, by decide, by decide, rfl, rfl⟩⟩
  unfold frameSnapshot
  rw [List.map_cons, List.map_map]
  simp [Function.comp_def]

theorem independent_min_score_nonexclusive_witness :
    ∃ (s : String → List Point → ℚ) (G : List (List Point))
      (b : List Point) (p1 p2 : String), p1 ∈ botsInPlay ∧ p2 ∈ botsInPlay
        ∧ p1 ≠ p2 ∧ bestBot (s p1) G = some b ∧ bestBot (s p2) G = some b :=
  (independent_min_score_nonexclusive (fun _ _ => 0) ⟨0, 0, 0, 0⟩ []).2.2.2

/-- Claim C5: for every duplicate-free point list and nonnegative radius, the
clustering returns a partition of the input — the concatenation of the
clusters is a permutation of the input (so their union is the input set),
distinct clusters are pairwise disjoint — and the empty point list yields
the empty cluster list. -/
theorem cluster_partition (pts : List Point) (r : ℚ) (h0 : 0 ≤ r)
    (hnd : pts.Nodup) :
    List.Perm (groupNearbyPoints pts r).flatten pts
      ∧ (groupNearbyPoints pts r).Pairwise List.Disjoint
      ∧ groupNearbyPoints ([] : List Point) r = [] := by
  have hperm := groupNearbyPoints_flatten_perm pts r
  exact ⟨hperm, (List.nodup_flatten.mp (hperm.symm.nodup hnd)).2,
    groupNearbyPoints_nil r⟩

theorem cluster_partition_witness :
    (0 : ℚ) ≤ 1
      ∧ ([((0 : ℚ), (0 : ℚ)), ((5 : ℚ), (5 : ℚ))] : List Point).Nodup
      ∧ List.Perm
          (groupNearbyPoints [((0 : ℚ), (0 : ℚ)), ((5 : ℚ), (5 : ℚ))] 1).flatten
          [((0 : ℚ), (0 : ℚ)), ((5 : ℚ), (5 : ℚ))] :=
  ⟨by decide, by decide,
    (cluster_partition [((0 : ℚ), (0 : ℚ)), ((5 : ℚ), (5 : ℚ))] 1
      (by decide) (by decide)).1⟩

/-- Claim C6: the reserved `'CAM'` entry of every FrameSnapshot is the camera's
fixed field position `(x_offset + FIELD_LENGTH, y_offset + FIELD_WIDTH)`,
computed directly from the construction-time offset parameters plus the
field dimensions, and it is identical in every frame. -/
theorem cam_entry_fixed (score : String → List Point → ℚ) (c : CamParams)
    (leds : List Point) :
    (frameSnapshot score c leds).lookup "CAM" =
        some (some (c.x_offset + c.fieldLength, c.y_offset + c.fieldWidth))
      ∧ ∀ leds2, (frameSnapshot score c leds).lookup "CAM" =
        (frameSnapshot score c leds2).lookup "CAM" :=
  ⟨rfl, fun _ => rfl⟩

theorem cam_entry_fixed_witness :
    (frameSnapshot (fun _ _ => 0) ⟨1, 2, 3, 4⟩ []).lookup "CAM" =
      some (some ((1 : ℚ) + 3, (2 : ℚ) + 4)) :=
  (cam_entry_fixed (fun _ _ => 0) ⟨1, 2, 3, 4⟩ []).1

/-- Claim C7: exactly one configuration message — carrying the target publish rate
`SAVE_FRAME_RATE` and the maximum packet size `PACKET_SIZE` — is sent, as
the very first event of the accepted session, before any steady-state
packet; no other configuration send ever occurs, and every acknowledgment
read in the session trace immediately follows a snapshot send, so none is
read for the configuration message. -/
theorem config_sent_once_unacked (score : String → List Point → ℚ)
    (c : CamParams) (frames : List (List Point × Outcome)) :
    sessionTrace score c frames =
        Event.sendConfig configDataPacket ::
          (loopTrace score c frames ++ [Event.closeConn])
      ∧ configDataPacket = { fps := SAVE_FRAME_RATE, packetSize := PACKET_SIZE }
      ∧ (∀ cfg, Event.sendConfig cfg ∉
          loopTrace score c frames ++ [Event.closeConn])
      ∧ ackPreceded (sessionTrace score c frames) := by
  refine ⟨rfl, rfl, ?_, ackPreceded_sessionTrace score c frames⟩
  intro cfg hmem
  rcases List.mem_append.mp hmem with hmem | hmem
  · exact sendConfig_not_mem_loopTrace score c frames cfg hmem
  · simp at hmem

theorem config_sent_once_unacked_witness :
    sessionTrace (fun _ _ => 0) ⟨0, 0, 0, 0⟩ [] =
      Event.sendConfig configDataPacket ::
        (loopTrace (fun _ _ => 0) ⟨0, 0, 0, 0⟩ [] ++ [Event.closeConn]) :=
  (config_sent_once_unacked (fun _ _ => 0) ⟨0, 0, 0, 0⟩ []).1

/-- Claim C8: the snapshot transmitted for a frame is a function only of that
frame's detected points and the fixed construction-time parameters: in any
two runs, if frame `i` of one and frame `j` of the other have the same
detected points, the `i`-th and `j`-th transmitted snapshots are identical,
whatever the other frames of either run contain. -/
theorem snapshot_frame_local (score : String → List Point → ℚ) (c : CamParams)
    (frames1 frames2 : List (List Point × Outcome)) (i j : ℕ)
    (h1 : ∀ f ∈ frames1, f.2 = Outcome.ok)
    (h2 : ∀ f ∈ frames2, f.2 = Outcome.ok)
    (hij : (frames1.map Prod.fst)[i]? = (frames2.map Prod.fst)[j]?) :
    (sentSnapshots (loopTrace score c frames1))[i]? =
      (sentSnapshots (loopTrace score c frames2))[j]? := by
  rw [sentSnapshots_loopTrace_ok score c frames1 h1,
    sentSnapshots_loopTrace_ok score c frames2 h2]
  have e1 : (frames1.map fun f => frameSnapshot score c f.1) =
      (frames1.map Prod.fst).map (frameSnapshot score c) := by
    rw [List.map_map]; rfl
  have e2 : (frames2.map fun f => frameSnapshot score c f.1) =
      (frames2.map Prod.fst).map (frameSnapshot score c) := by
    rw [List.map_map]; rfl
  rw [e1, e2]
  simp only [List.getElem?_map] at hij ⊢
  rw [hij]

theorem snapshot_frame_local_witness :
    (sentSnapshots (loopTrace (fun _ _ => 0) ⟨0, 0, 0, 0⟩
        [(([] : List Point), Outcome.ok)]))[0]? =
      (sentSnapshots (loopTrace (fun _ _ => 0) ⟨0, 0, 0, 0⟩
        [([((3 : ℚ), (3 : ℚ))], Outcome.ok), ([], Outcome.ok)]))[1]? :=
  snapshot_frame_local (fun _ _ => 0) ⟨0, 0, 0, 0⟩
    [([], Outcome.ok)] [([((3 : ℚ), (3 : ℚ))], Outcome.ok), ([], Outcome.ok)]
    0 1 (by decide) (by decide) rfl

/-- Claim C9: best-match selection applies no score threshold: whenever the frame
yields at least one nonempty cluster, every cataloged BotIdentity's entry is
a resolved position — never the unresolved sentinel — because the initial
best score is infinite and any score wins; and when no nonempty cluster
exists, every identity's entry is the unresolved sentinel. -/
theorem no_threshold_always_assigned (score : String → List Point → ℚ)
    (c : CamParams) (leds : List Point) :
    ((∃ g ∈ groupNearbyPoints leds 1, g ≠ []) →
      ∀ pat ∈ botsInPlay, ∃ p : Point,
        (frameSnapshot score c leds).lookup pat = some (some p))
    ∧ ((∀ g ∈ groupNearbyPoints leds 1, g = []) →
      ∀ pat ∈ botsInPlay,
        (frameSnapshot score c leds).lookup pat = some none) := by
  constructor
  · intro h pat hpat
    obtain ⟨b, hb, _, hbne, _⟩ := bestBot_spec_some (score pat) _ h
    obtain ⟨p, hp⟩ := groupCenter_some b hbne
    exact ⟨p, by rw [frameSnapshot_lookup score c leds pat hpat, hb, hp]⟩
  · intro h pat hpat
    rw [frameSnapshot_lookup score c leds pat hpat,
      bestBot_none (score pat) _ h]
    rfl

theorem no_threshold_always_assigned_witness :
    (frameSnapshot (fun _ _ => 0) ⟨0, 0, 0, 0⟩ []).lookup "H" = some none :=
  (no_threshold_always_assigned (fun _ _ => 0) ⟨0, 0, 0, 0⟩ []).2
    (by simp [groupNearbyPoints_nil]) "H" (by decide)

/-- Claim C10: every FrameSnapshot has exactly six entries, whose keys are exactly
`CAM`, `X`, `Y`, `STAIR`, `H`, `L` in that fixed order, in every frame. -/
theorem snapshot_keys_exact (score : String → List Point → ℚ) (c : CamParams)
    (leds : List Point) :
    (frameSnapshot score c leds).map Prod.fst =
        ["CAM", "X", "Y", "STAIR", "H", "L"]
      ∧ (frameSnapshot score c leds).length = 6 := by
  constructor
  · simp [frameSnapshot, botsInPlay]
  · simp [frameSnapshot, botsInPlay]

theorem snapshot_keys_exact_witness :
    (frameSnapshot (fun _ _ => 0) ⟨0, 0, 0, 0⟩ [((7 : ℚ), (7 : ℚ))]).map
        Prod.fst = ["CAM", "X", "Y", "STAIR", "H", "L"] :=
  (snapshot_keys_exact (fun _ _ => 0) ⟨0, 0, 0, 0⟩ [((7 : ℚ), (7 : ℚ))]).1

end SnS
